import Mathlib

/-!
Shallow embedding of the notification-aggregation and classification
pipeline of `app/tasks/analysis.py` (function `main`, phases 2-6, plus the
helpers `extract_natural_name` and `get_latest_timestamp_from_db`), together
with the truncation step `sorted_users[:max_users_to_scrape]` of
`app/tasks/user_engagement_tasks.py`.

Modelling conventions:
* Timestamps are kept as `String`s and compared with the lexicographic
  `String` order, exactly as the Python code compares them in the
  aggregation fold and in the final store sort.  Where the Python code
  parses a timestamp with `datetime.strptime('%Y-%m-%d %H:%M:%S')` and
  compares `datetime` values (the 12h/24h window checks), the comparison is
  order-isomorphic to the lexicographic comparison of the fixed-width
  zero-padded strings, so those checks are modelled on the strings with the
  boundary value (`twelve_hours_ago`, `twenty_four_hours_ago`,
  `datetime.min`) passed in as a string parameter; `datetime.min` becomes
  the empty string, a strict lower bound of every well-formed timestamp.
* Python dictionaries (`aggregated_users`, `existing_users`) are modelled
  as lists of records with unique keys, updated in place and extended at
  the end, which is exactly the insertion-order view Python 3.7+ gives of
  `dict` reads, writes and `.values()`.
* `str.format(user_name=...)` on templates whose only placeholder is
  `{user_name}` is modelled as replacement of every occurrence of the
  placeholder, and `str.strip()` as trimming ASCII whitespace.
-/

namespace REngagement

/-- One scraped feed event, as assembled in phase 1 of `analysis.py`
(fields `id`, `name`, `action_text`, `action_timestamp`, `is_following`;
the avatar URL plays no role after phase 1 and is omitted). -/
structure RawNotification where
  id : String
  name : String
  action_text : String
  action_timestamp : String
  is_following : Bool
deriving Repr, DecidableEq

/-- One aggregated user, as built by phase 2 of `analysis.py`.
`latest_action_text` is absent from the freshly initialised Python dict and
only appears through the last-write update; the default `""` stands for
that absent state.  `comment_text` is likewise absent until phase 5 sets
it, modelled by `Option`. -/
structure UserEngagement where
  id : String
  name : String
  like_count : Nat := 0
  collect_count : Nat := 0
  follow_count : Nat := 0
  comment_count : Nat := 0
  is_following : Bool
  latest_action_text : String := ""
  latest_action_timestamp : String
  category : String := ""
  comment_text : Option String := none
deriving Repr, DecidableEq

/-- Lexicographic strict comparison of character lists by code point:
Python's `<` on strings.  (Lean's built-in `String.lt` denotes the same
order but its decision procedure does not reduce in the kernel, so the
comparison is spelled out.) -/
def lexLtB : List Char → List Char → Bool
  | [], [] => false
  | [], _ :: _ => true
  | _ :: _, [] => false
  | a :: as, b :: bs => if a < b then true else if b < a then false else lexLtB as bs

/-- Python's `s < t` on the timestamp strings. -/
def tsLt (a b : String) : Bool :=
  lexLtB a.data b.data

/-- `needle` occurs as a contiguous run inside `hay` (Python's
`needle in hay` on strings), on character lists. -/
def containsSub (needle : List Char) : List Char → Bool
  | [] => needle.isEmpty
  | c :: cs => needle.isPrefixOf (c :: cs) || containsSub needle cs

/-- Python's substring test `needle in hay`. -/
def strContains (hay needle : String) : Bool :=
  containsSub needle.data hay.data

/-- The four action phrases counted by the aggregation fold. -/
def likePhrase : String := "いいねしました"

def collectPhrase : String := "コレ！しました"

def followPhrase : String := "あなたをフォローしました"

def commentPhrase : String := "あなたの商品にコメントしました"

/-- The fresh entry created when a `user_id` is first seen
(`aggregated_users[user_id] = {...}` in `analysis.py`): zero counters,
name/follow-state/timestamp seeded from the notification. -/
def initUser (n : RawNotification) : UserEngagement :=
  { id := n.id
    name := n.name
    is_following := n.is_following
    latest_action_timestamp := n.action_timestamp }

/-- The four substring-guarded counter increments applied by one
notification (`analysis.py` lines 216-223). -/
def applyCounts (u : UserEngagement) (n : RawNotification) : UserEngagement :=
  { u with
    like_count := u.like_count + (if strContains n.action_text likePhrase then 1 else 0)
    collect_count := u.collect_count + (if strContains n.action_text collectPhrase then 1 else 0)
    follow_count := u.follow_count + (if strContains n.action_text followPhrase then 1 else 0)
    comment_count := u.comment_count + (if strContains n.action_text commentPhrase then 1 else 0) }

/-- Applying one notification to the (existing or freshly created) entry of
its user: the counter increments, then the last-write update guarded by a
strict string comparison of timestamps (`analysis.py` lines 225-230; the
counter increments do not touch the timestamp, so the guard is stated on
the entry's stored timestamp directly).  Note that the update overwrites
`is_following`, `latest_action_text` and `latest_action_timestamp` but not
`name`. -/
def stepUser (u : UserEngagement) (n : RawNotification) : UserEngagement :=
  if tsLt u.latest_action_timestamp n.action_timestamp then
    { applyCounts u n with
      is_following := n.is_following
      latest_action_text := n.action_text
      latest_action_timestamp := n.action_timestamp }
  else applyCounts u n

/-- Folding one notification into the aggregation dictionary: update the
entry with the matching `id` in place, or append a fresh entry at the end.
This is Python-dict insertion-order semantics. -/
def foldNotification (m : List UserEngagement) (n : RawNotification) : List UserEngagement :=
  match m with
  | [] => [stepUser (initUser n) n]
  | u :: us => if u.id = n.id then stepUser u n :: us else u :: foldNotification us n

/-- Phase 2 aggregation: fold the scraped notifications in arrival order
into the per-user dictionary. -/
def aggregate (ns : List RawNotification) : List UserEngagement :=
  ns.foldl foldNotification []

/-- Dictionary lookup `aggregated_users[user_id]`. -/
def lookupUser (m : List UserEngagement) (uid : String) : Option UserEngagement :=
  m.find? (fun u => u.id = uid)

/-- The seven category labels of the classifier, in rule order. -/
def allCategories : List String :=
  ["いいね多謝", "新規フォロー＆いいね感謝", "未フォロー＆いいね感謝",
   "いいね＆コレ！感謝", "新規フォロー", "いいね感謝", "その他"]

/-- Phase 2 categorisation: the cascading conditionals of `analysis.py`
lines 240-253, translated branch for branch. -/
def categorize (u : UserEngagement) : String :=
  if u.like_count ≥ 3 then "いいね多謝"
  else if u.follow_count > 0 ∧ u.like_count > 0 then "新規フォロー＆いいね感謝"
  else if u.like_count > 0 ∧ ¬ u.is_following then "未フォロー＆いいね感謝"
  else if u.like_count > 0 ∧ u.collect_count > 0 then "いいね＆コレ！感謝"
  else if u.follow_count > 0 ∧ u.like_count = 0 then "新規フォロー"
  else if u.like_count > 0 then "いいね感謝"
  else "その他"

/-- Modelled from the spec: the classifier as an explicit priority-ordered
rule table, each entry a predicate with its label, evaluated top-to-bottom
with first match winning and `"その他"` as the fall-through. -/
def ruleTable : List ((UserEngagement → Bool) × String) :=
  [(fun u => u.like_count ≥ 3, "いいね多謝"),
   (fun u => u.follow_count > 0 && u.like_count > 0, "新規フォロー＆いいね感謝"),
   (fun u => u.like_count > 0 && ! u.is_following, "未フォロー＆いいね感謝"),
   (fun u => u.like_count > 0 && u.collect_count > 0, "いいね＆コレ！感謝"),
   (fun u => u.follow_count > 0 && u.like_count = 0, "新規フォロー"),
   (fun u => u.like_count > 0, "いいね感謝")]

/-- Modelled from the spec: first-match evaluation of a rule table. -/
def firstMatch (rules : List ((UserEngagement → Bool) × String)) (u : UserEngagement) : String :=
  match rules with
  | [] => "その他"
  | r :: rest => if r.1 u then r.2 else firstMatch rest u

/-- Phase 2 filtering of categorised users: assign each dictionary value
its category and drop the `"その他"` bucket, in dictionary value order. -/
def categorizeUsers (m : List UserEngagement) : List UserEngagement :=
  (m.map (fun u => { u with category := categorize u })).filter
    (fun u => u.category ≠ "その他")

/-- The result of folding a sequence of same-user notifications into an
optional dictionary entry: `none` stands for "the user has not been seen
yet".  `aggregate`, restricted to one user's notifications, computes
exactly this fold (theorem `lookup_aggregate`). -/
def foldOne (o : Option UserEngagement) (n : RawNotification) : Option UserEngagement :=
  some (stepUser (o.getD (initUser n)) n)

/-- The per-user interaction counters, bundled. -/
def countsOf (u : UserEngagement) : Nat × Nat × Nat × Nat :=
  (u.like_count, u.collect_count, u.follow_count, u.comment_count)

/-- `get_latest_timestamp_from_db`: the maximum `latest_action_timestamp`
over the persisted store, starting from `datetime.min` (modelled as `""`,
a strict lower bound of every timestamp string).  A missing or corrupt
store file (`storeRead = none`) yields the sentinel. -/
def get_latest_timestamp_from_db (storeRead : Option (List UserEngagement)) : String :=
  match storeRead with
  | none => ""
  | some data =>
      data.foldl
        (fun acc u => if tsLt acc u.latest_action_timestamp then u.latest_action_timestamp else acc)
        ""

/-- Phase 3 time filter (`analysis.py` lines 270-275): keep a categorised
user iff its latest action is strictly newer than the 12-hour boundary and
strictly newer than the store's newest timestamp. -/
def usersToProcess (twelveAgo latestDb : String) (users : List UserEngagement) :
    List UserEngagement :=
  users.filter
    (fun u => tsLt twelveAgo u.latest_action_timestamp && tsLt latestDb u.latest_action_timestamp)

/-- The phase 3 sort key of `analysis.py` lines 282-288, with Python's
`bool` arithmetic made explicit: `-(cond)` is `-1` when the condition holds
and `0` otherwise, and `is_following` sorts as `0/1`. -/
def codeKey (u : UserEngagement) : Int × Int × Int × Int × Int :=
  (-(u.like_count : Int),
   if u.follow_count > 0 ∧ u.like_count > 0 then -1 else 0,
   if u.follow_count > 0 ∧ u.like_count = 0 then -1 else 0,
   if u.is_following then 1 else 0,
   if u.collect_count > 0 then -1 else 0)

/-- Modelled from the spec: the Ranker's composite key as the spec words
it, with `0 if cond else 1` components. -/
def specKey (u : UserEngagement) : Int × Nat × Nat × Nat × Nat :=
  (-(u.like_count : Int),
   if u.follow_count > 0 ∧ u.like_count > 0 then 0 else 1,
   if u.follow_count > 0 ∧ u.like_count = 0 then 0 else 1,
   if u.is_following then 1 else 0,
   if u.collect_count > 0 then 0 else 1)

/-- Lexicographic `≤` on the code's 5-component sort key. -/
def keyLe (k₁ k₂ : Int × Int × Int × Int × Int) : Prop :=
  k₁.1 < k₂.1 ∨ k₁.1 = k₂.1 ∧
    (k₁.2.1 < k₂.2.1 ∨ k₁.2.1 = k₂.2.1 ∧
      (k₁.2.2.1 < k₂.2.2.1 ∨ k₁.2.2.1 = k₂.2.2.1 ∧
        (k₁.2.2.2.1 < k₂.2.2.2.1 ∨ k₁.2.2.2.1 = k₂.2.2.2.1 ∧
          k₁.2.2.2.2 ≤ k₂.2.2.2.2)))

instance : DecidableRel keyLe := fun k₁ k₂ => by unfold keyLe; infer_instance

/-- Lexicographic `≤` on the spec's 5-component sort key. -/
def specKeyLe (k₁ k₂ : Int × Nat × Nat × Nat × Nat) : Prop :=
  k₁.1 < k₂.1 ∨ k₁.1 = k₂.1 ∧
    (k₁.2.1 < k₂.2.1 ∨ k₁.2.1 = k₂.2.1 ∧
      (k₁.2.2.1 < k₂.2.2.1 ∨ k₁.2.2.1 = k₂.2.2.1 ∧
        (k₁.2.2.2.1 < k₂.2.2.2.1 ∨ k₁.2.2.2.1 = k₂.2.2.2.1 ∧
          k₁.2.2.2.2 ≤ k₂.2.2.2.2)))

/-- The sort order of phase 3: Python's `sorted` with the tuple key. -/
def rankLe (a b : UserEngagement) : Prop :=
  keyLe (codeKey a) (codeKey b)

/-- The Ranker's order as the spec words it. -/
def specUserLe (a b : UserEngagement) : Prop :=
  specKeyLe (specKey a) (specKey b)

instance : DecidableRel rankLe := fun a b => by unfold rankLe; infer_instance

instance : IsTotal UserEngagement rankLe :=
  ⟨by intro a b; unfold rankLe keyLe; omega⟩

instance : IsTrans UserEngagement rankLe :=
  ⟨by intro a b c; unfold rankLe keyLe; omega⟩

/-- Phase 3 sort: Python's stable `sorted` with the tuple key, modelled by
insertion sort (which realises the same stable order). -/
def rankUsers (l : List UserEngagement) : List UserEngagement :=
  List.insertionSort rankLe l

/-- The Ranker: stable sort followed by truncation to the target count
(`sorted_users[:max_users_to_scrape]` in `user_engagement_tasks.py`). -/
def ranker (n : Nat) (l : List UserEngagement) : List UserEngagement :=
  (rankUsers l).take n

/-- One dictionary write `d[u.id] = u` on the insertion-ordered view of a
Python dict: replace the entry with the same key in place, or append. -/
def dictInsert (m : List UserEngagement) (u : UserEngagement) : List UserEngagement :=
  match m with
  | [] => [u]
  | v :: vs => if v.id = u.id then u :: vs else v :: dictInsert vs u

/-- Loading the prior store into the `existing_users` dict
(`analysis.py` lines 371-378). -/
def storeDictOf (data : List UserEngagement) : List UserEngagement :=
  data.foldl dictInsert []

/-- Phase 6 retention filter: keep records with
`action_time >= twenty_four_hours_ago`, i.e. whose timestamp is not
strictly below the cutoff. -/
def retentionFilter (cutoff : String) (users : List UserEngagement) : List UserEngagement :=
  users.filter (fun u => ! tsLt u.latest_action_timestamp cutoff)

/-- The phase 6 output order: `latest_action_timestamp` descending
(`sorted(..., reverse=True)`); `a` may precede `b` iff `a`'s timestamp is
not strictly smaller. -/
def descLe (a b : UserEngagement) : Prop :=
  tsLt a.latest_action_timestamp b.latest_action_timestamp = false

instance : DecidableRel descLe := fun a b => by unfold descLe; infer_instance

/-- Phase 6 merge (`analysis.py` lines 370-403): load the prior store into
a dict, overwrite with the new batch, drop records older than the 24-hour
cutoff, and sort by timestamp descending. -/
def mergeStore (newBatch oldStore : List UserEngagement) (cutoff : String) :
    List UserEngagement :=
  List.insertionSort descLe
    (retentionFilter cutoff (newBatch.foldl dictInsert (storeDictOf oldStore)))

/-- The whole phase 6 with its error behaviour: a missing or corrupt store
file on read (`storeRead = none`) degenerates to an empty prior store and
is never an error; only a failing write surfaces as an error of the run. -/
def runMergePhase (storeRead : Option (List UserEngagement))
    (newBatch : List UserEngagement) (cutoff : String) (writeOk : Bool) :
    Except String (List UserEngagement) :=
  let existingData := match storeRead with | none => [] | some l => l
  let result := mergeStore newBatch existingData cutoff
  if writeOk then .ok result else .error "JSONファイルへの保存中にエラーが発生しました"

/-- The separator alphabet of `extract_natural_name`: the emoji ranges and
the listed full/half-width symbols of the regex character class. -/
def isSepChar (c : Char) : Bool :=
  (decide (0x2600 ≤ c.val) && decide (c.val ≤ 0x27BF)) ||
  (decide (0x1F300 ≤ c.val) && decide (c.val ≤ 0x1F5FF)) ||
  (decide (0x1F600 ≤ c.val) && decide (c.val ≤ 0x1F64F)) ||
  (decide (0x1F680 ≤ c.val) && decide (c.val ≤ 0x1F6FF)) ||
  (decide (0x1F1E0 ≤ c.val) && decide (c.val ≤ 0x1F1FF)) ||
  (decide (0x1F900 ≤ c.val) && decide (c.val ≤ 0x1F9FF)) ||
  ['|', '│', '￤', '＠', '@', '/', '｜', '*', '＊', '※', '☆', '★', '♪', '#', '＃', '♭', '🎀'].contains c

/-- ASCII whitespace, for Python's `str.strip()`. -/
def isWS (c : Char) : Bool :=
  c = ' ' || c = '\t' || c = '\n' || c = '\r'

/-- Python's `str.strip()` on a character list. -/
def trimChars (l : List Char) : List Char :=
  ((l.dropWhile isWS).reverse.dropWhile isWS).reverse

/-- `extract_natural_name` of `analysis.py` as it actually executes: split
on separator characters, return the first split part whose strip is
non-empty (stripped), and fall back to the stripped original name when
every part strips to empty.  (The regex splits on *runs* of separators;
splitting on single separators instead only adds empty parts, which the
non-empty-strip search skips, so the result is unchanged.  The dead code
after the early `return` on line 64 of the source never runs.) -/
def extract_natural_name (full_name : String) : String :=
  if full_name = "" then ""
  else
    match (full_name.data.splitOnP isSepChar).find?
        (fun part => ! (trimChars part).isEmpty) with
    | some part => ⟨trimChars part⟩
    | none => ⟨trimChars full_name.data⟩

/-- Direct recursive characterisation of the extraction: skip separator
characters, inspect the next separator-free chunk, return it stripped if
its strip is non-empty, otherwise continue after the chunk; `none` when the
whole string is exhausted. -/
def firstChunk : List Char → Option (List Char)
  | [] => none
  | c :: cs =>
    if isSepChar c then firstChunk cs
    else
      let chunk := c :: cs.takeWhile (fun d => ! isSepChar d)
      if (trimChars chunk).isEmpty then
        firstChunk (cs.dropWhile (fun d => ! isSepChar d))
      else some (trimChars chunk)
termination_by l => l.length
decreasing_by
  · simp only [List.length_cons]; omega
  · simp only [List.length_cons]
    exact Nat.lt_succ_of_le (List.dropWhile_sublist _).length_le

/-- Modelled from the spec (for the amended C8): the extraction phrased as
a first-chunk scan. -/
def extractSpec (full_name : String) : String :=
  if full_name = "" then ""
  else
    match firstChunk full_name.data with
    | some chunk => ⟨chunk⟩
    | none => ⟨trimChars full_name.data⟩

/-- Modelled from the spec: "removing leading/trailing decorative symbol
runs from `display_name`", literally. -/
def stripSymbolRuns (s : String) : String :=
  ⟨((s.data.dropWhile isSepChar).reverse.dropWhile isSepChar).reverse⟩

/-- Replacement of every (non-overlapping, leftmost-first) occurrence of
`pat` inside a character list: Python's `str.replace`.  The `fuel`
argument (instantiated with the list's length, which bounds the number of
steps) only makes the recursion structural. -/
def replaceAux (pat rep : List Char) : Nat → List Char → List Char
  | 0, s => s
  | _ + 1, [] => []
  | fuel + 1, c :: cs =>
    if pat.isPrefixOf (c :: cs) && ! pat.isEmpty then
      rep ++ replaceAux pat rep fuel (cs.drop (pat.length - 1))
    else c :: replaceAux pat rep fuel cs

/-- Python's `str.replace` on strings. -/
def strReplace (s pat rep : String) : String :=
  ⟨replaceAux pat.data rep.data s.data.length s.data⟩

/-- Python's `str.strip()` on strings. -/
def strTrim (s : String) : String :=
  ⟨trimChars s.data⟩

/-- The generic fixed fallback sentence of phase 5. -/
def fallbackComment : String := "ご訪問ありがとうございます！"

/-- The name-referencing lead-in phrase stripped when no usable name was
extracted. -/
def leadIn : String := "{user_name}さん、"

/-- Phase 5 text binding for one chosen template (`analysis.py` lines
351-357): interpolate the extracted name iff it is non-empty and at most 6
characters long; otherwise remove the lead-in phrase and strip. -/
def bindText (template rawName : String) : String :=
  let natural := extract_natural_name rawName
  if natural ≠ "" ∧ natural.length ≤ 6 then
    strReplace template "{user_name}" natural
  else
    strTrim (strReplace template leadIn "")

/-- `comment_templates.get(category, comment_templates.get('その他', []))`
on the association-list view of the template JSON object. -/
def lookupTemplates (tmap : List (String × List String)) (category : String) : List String :=
  match tmap.find? (fun e => e.1 = category) with
  | some e => e.2
  | none =>
    match tmap.find? (fun e => e.1 = "その他") with
    | some e => e.2
    | none => []

/-- Phase 5 binding for one user: a non-empty template list gets a chosen
template bound, an empty one gets the fixed fallback sentence.  `choose`
stands for `random.choice`. -/
def bindUser (tmap : List (String × List String)) (choose : List String → String)
    (u : UserEngagement) : UserEngagement :=
  let templates := lookupTemplates tmap u.category
  if templates.isEmpty then { u with comment_text := some fallbackComment }
  else { u with comment_text := some (bindText (choose templates) u.name) }

/-- Phase 5 with its error behaviour: a missing template file
(`tmapOpt = none`) is logged and leaves every record untouched (no
`comment_text`, nothing discarded); otherwise every record is bound. -/
def bindComments (tmapOpt : Option (List (String × List String)))
    (choose : List String → String) (users : List UserEngagement) : List UserEngagement :=
  match tmapOpt with
  | none => users
  | some tmap => users.map (bindUser tmap choose)

/-- Phases 5 and 6 in sequence, as `main` runs them: the comment-binding
outcome feeds the merge unconditionally. -/
def bindThenMerge (tmapOpt : Option (List (String × List String)))
    (choose : List String → String) (users oldStore : List UserEngagement)
    (cutoff : String) : List UserEngagement :=
  mergeStore (bindComments tmapOpt choose users) oldStore cutoff

/-- The last-write pair `(latest_action_timestamp, is_following)` as one
notification updates it: the projection of `stepUser`'s guarded
overwrite. -/
def lastWriteState (s : String × Bool) (n : RawNotification) : String × Bool :=
  if tsLt s.1 n.action_timestamp then (n.action_timestamp, n.is_following) else s

/-! ## Theorems -/

/-- `lexLtB` decides the lexicographic order `List.Lex (· < ·)`. -/
theorem lexLtB_iff : ∀ l₁ l₂ : List Char, lexLtB l₁ l₂ = true ↔ List.Lex (· < ·) l₁ l₂
  | [], [] => by
    simp only [lexLtB, Bool.false_eq_true, false_iff]
    exact List.Lex.not_nil_right _ _
  | [], _ :: _ => by
    simp only [lexLtB, true_iff]
    exact List.Lex.nil
  | _ :: _, [] => by
    simp only [lexLtB, Bool.false_eq_true, false_iff]
    exact List.Lex.not_nil_right _ _
  | a :: as, b :: bs => by
    simp only [lexLtB]
    rcases lt_trichotomy a b with h | h | h
    · simp only [h, if_true, true_iff]
      exact List.Lex.rel h
    · subst h
      simp only [lt_irrefl, if_false, lexLtB_iff as bs]
      constructor
      · exact fun hl => List.Lex.cons hl
      · intro hl
        cases hl with
        | cons h => exact h
        | rel h => exact absurd h (lt_irrefl a)
    · have hab : ¬ a < b := not_lt_of_lt h
      simp only [hab, if_false, h, if_true, Bool.false_eq_true, false_iff]
      intro hl
      cases hl with
      | cons h2 => exact absurd h (lt_irrefl a)
      | rel h2 => exact absurd (h.trans h2) (lt_irrefl b)

theorem stepUser_id (u : UserEngagement) (n : RawNotification) :
    (stepUser u n).id = u.id := by
  unfold stepUser applyCounts
  split <;> rfl

theorem stepUser_name (u : UserEngagement) (n : RawNotification) :
    (stepUser u n).name = u.name := by
  unfold stepUser applyCounts
  split <;> rfl

theorem stepUser_like (u : UserEngagement) (n : RawNotification) :
    (stepUser u n).like_count =
      u.like_count + (if strContains n.action_text likePhrase then 1 else 0) := by
  unfold stepUser applyCounts
  split <;> rfl

theorem stepUser_collect (u : UserEngagement) (n : RawNotification) :
    (stepUser u n).collect_count =
      u.collect_count + (if strContains n.action_text collectPhrase then 1 else 0) := by
  unfold stepUser applyCounts
  split <;> rfl

theorem stepUser_follow (u : UserEngagement) (n : RawNotification) :
    (stepUser u n).follow_count =
      u.follow_count + (if strContains n.action_text followPhrase then 1 else 0) := by
  unfold stepUser applyCounts
  split <;> rfl

theorem stepUser_comment (u : UserEngagement) (n : RawNotification) :
    (stepUser u n).comment_count =
      u.comment_count + (if strContains n.action_text commentPhrase then 1 else 0) := by
  unfold stepUser applyCounts
  split <;> rfl

theorem lookupUser_cons (u : UserEngagement) (us : List UserEngagement) (uid : String) :
    lookupUser (u :: us) uid = if u.id = uid then some u else lookupUser us uid := by
  by_cases h : u.id = uid <;> simp [lookupUser, List.find?_cons, h]

/-- Folding one notification changes the dictionary only at the
notification's own key, where it acts as `foldOne`. -/
theorem lookup_foldNotification (m : List UserEngagement) (n : RawNotification) (uid : String) :
    lookupUser (foldNotification m n) uid =
      if n.id = uid then foldOne (lookupUser m uid) n else lookupUser m uid := by
  induction m with
  | nil =>
    by_cases h : n.id = uid <;>
      simp [foldNotification, foldOne, lookupUser, List.find?_cons, stepUser_id, initUser, h]
  | cons u us ih =>
    simp only [foldNotification]
    by_cases hu : u.id = n.id
    · rw [if_pos hu, lookupUser_cons, lookupUser_cons, stepUser_id]
      by_cases h : n.id = uid
      · rw [if_pos h, if_pos (hu.trans h), if_pos (hu.trans h), foldOne]
        simp
      · rw [if_neg h, if_neg fun he => h (hu ▸ he), if_neg fun he => h (hu ▸ he)]
    · rw [if_neg hu, lookupUser_cons, lookupUser_cons]
      by_cases h : u.id = uid
      · rw [if_pos h, if_pos h, if_neg fun he => hu (h.trans he.symm)]
      · rw [if_neg h, if_neg h, ih]

/-- Looking one user up in the aggregation dictionary is the same as
folding just that user's notifications, in order. -/
theorem lookup_aggregate_core (ns : List RawNotification) (m : List UserEngagement)
    (uid : String) :
    lookupUser (ns.foldl foldNotification m) uid =
      (ns.filter (fun n => n.id = uid)).foldl foldOne (lookupUser m uid) := by
  induction ns generalizing m with
  | nil => rfl
  | cons n ns ih =>
    simp only [List.foldl_cons, List.filter_cons]
    by_cases h : n.id = uid
    · simp [h, ih, lookup_foldNotification]
    · simp [h, ih, lookup_foldNotification]

/-- The aggregation of phase 2, observed at one `user_id`, is the fold of
that user's own notification subsequence. -/
theorem lookup_aggregate (ns : List RawNotification) (uid : String) :
    lookupUser (aggregate ns) uid = (ns.filter (fun n => n.id = uid)).foldl foldOne none :=
  lookup_aggregate_core ns [] uid

/-- Counter bookkeeping of the per-user fold: starting from an existing
entry, each counter grows by the number of notifications whose action text
contains the matching phrase, and `id`/`name` never change. -/
theorem foldl_foldOne_some (l : List RawNotification) (u : UserEngagement) :
    ∃ v, l.foldl foldOne (some u) = some v ∧
      v.id = u.id ∧ v.name = u.name ∧
      v.like_count = u.like_count + l.countP (fun n => strContains n.action_text likePhrase) ∧
      v.collect_count =
        u.collect_count + l.countP (fun n => strContains n.action_text collectPhrase) ∧
      v.follow_count =
        u.follow_count + l.countP (fun n => strContains n.action_text followPhrase) ∧
      v.comment_count =
        u.comment_count + l.countP (fun n => strContains n.action_text commentPhrase) := by
  induction l generalizing u with
  | nil => exact ⟨u, rfl, rfl, rfl, by simp [List.countP_nil]⟩
  | cons n l ih =>
    obtain ⟨v, hv, hid, hname, hlike, hcollect, hfollow, hcomment⟩ := ih (stepUser u n)
    refine ⟨v, ?_, ?_, ?_, ?_, ?_, ?_, ?_⟩
    · simpa [foldOne] using hv
    · rw [hid, stepUser_id]
    · rw [hname, stepUser_name]
    · rw [hlike, stepUser_like, List.countP_cons]
      by_cases h : strContains n.action_text likePhrase = true <;> simp [h] <;> omega
    · rw [hcollect, stepUser_collect, List.countP_cons]
      by_cases h : strContains n.action_text collectPhrase = true <;> simp [h] <;> omega
    · rw [hfollow, stepUser_follow, List.countP_cons]
      by_cases h : strContains n.action_text followPhrase = true <;> simp [h] <;> omega
    · rw [hcomment, stepUser_comment, List.countP_cons]
      by_cases h : strContains n.action_text commentPhrase = true <;> simp [h] <;> omega

/-- The counters of an aggregated user are exactly the phrase-match counts
over that user's own notifications. -/
theorem counts_eq_countP (ns : List RawNotification) (uid : String) (v : UserEngagement)
    (hv : lookupUser (aggregate ns) uid = some v) :
    v.like_count =
        (ns.filter (fun n => n.id = uid)).countP
          (fun n => strContains n.action_text likePhrase) ∧
      v.collect_count =
        (ns.filter (fun n => n.id = uid)).countP
          (fun n => strContains n.action_text collectPhrase) ∧
      v.follow_count =
        (ns.filter (fun n => n.id = uid)).countP
          (fun n => strContains n.action_text followPhrase) ∧
      v.comment_count =
        (ns.filter (fun n => n.id = uid)).countP
          (fun n => strContains n.action_text commentPhrase) := by
  rw [lookup_aggregate] at hv
  rcases hf : ns.filter (fun n => n.id = uid) with _ | ⟨n, rest⟩
  · rw [hf] at hv
    exact absurd hv (by simp)
  · rw [hf] at hv
    simp only [List.foldl_cons, foldOne, Option.getD_none] at hv
    obtain ⟨w, hw, hid, hname, hlike, hcollect, hfollow, hcomment⟩ :=
      foldl_foldOne_some rest (stepUser (initUser n) n)
    rw [hw] at hv
    cases hv
    constructor
    · rw [hlike, stepUser_like, hf, List.countP_cons]
      simp only [initUser]
      by_cases h : strContains n.action_text likePhrase = true <;> simp [h] <;> omega
    constructor
    · rw [hcollect, stepUser_collect, hf, List.countP_cons]
      simp only [initUser]
      by_cases h : strContains n.action_text collectPhrase = true <;> simp [h] <;> omega
    constructor
    · rw [hfollow, stepUser_follow, hf, List.countP_cons]
      simp only [initUser]
      by_cases h : strContains n.action_text followPhrase = true <;> simp [h] <;> omega
    · rw [hcomment, stepUser_comment, hf, List.countP_cons]
      simp only [initUser]
      by_cases h : strContains n.action_text commentPhrase = true <;> simp [h] <;> omega

/-- C1: the classifier evaluates the fixed rule list top-to-bottom with
first match winning and is total: it returns exactly one of the seven
labels for every combination of counts and follow flag, and the user with
`like_count = 5, follow_count = 0, is_following = false, collect_count = 0`
is classified by rule 1 ("multi-like thanks", `いいね多謝`) even though
rule 3 also matches. -/
theorem c1_classifier_first_match_total :
    (∀ u : UserEngagement, categorize u = firstMatch ruleTable u) ∧
    (∀ u : UserEngagement, categorize u ∈ allCategories) ∧
    categorize { id := "u1", name := "n", like_count := 5, follow_count := 0,
                 collect_count := 0, is_following := false,
                 latest_action_timestamp := "2024-01-01 10:00:00" } = "いいね多謝" := by
  refine ⟨fun u => ?_, fun u => ?_, rfl⟩
  · simp only [categorize, firstMatch, ruleTable, Bool.and_eq_true, decide_eq_true_eq,
      Bool.not_eq_true', Bool.not_eq_true]
  · unfold categorize allCategories
    split_ifs <;> simp

theorem lexLtB_irrefl : ∀ l : List Char, lexLtB l l = false
  | [] => rfl
  | c :: cs => by simp [lexLtB, lt_irrefl, lexLtB_irrefl cs]

theorem tsLt_irrefl (s : String) : tsLt s s = false :=
  lexLtB_irrefl s.data

/-- C2 counterexample: folding a second, strictly newer notification whose
`name` differs does NOT overwrite `display_name` — the aggregated record
keeps the first-folded name `"A"`, not the newer notification's `"B"` as
the claim states. -/
theorem c2_counterexample :
    (lookupUser
        (aggregate
          [{ id := "u1", name := "A", action_text := "いいねしました",
             action_timestamp := "2024-01-01 10:00:00", is_following := false },
           { id := "u1", name := "B", action_text := "いいねしました",
             action_timestamp := "2024-01-01 11:00:00", is_following := true }])
        "u1").map UserEngagement.name = some "A" ∧
      (lookupUser
        (aggregate
          [{ id := "u1", name := "A", action_text := "いいねしました",
             action_timestamp := "2024-01-01 10:00:00", is_following := false },
           { id := "u1", name := "B", action_text := "いいねしました",
             action_timestamp := "2024-01-01 11:00:00", is_following := true }])
        "u1").map UserEngagement.name ≠ some "B" := by
  constructor
  · rfl
  · decide

/-- C2 amended: on a strictly newer timestamp (string comparison) the fold
overwrites `is_following`, `latest_action_text` and
`latest_action_timestamp` — but not `display_name`, which keeps its stored
value; on an exactly equal timestamp nothing of the last-write fields is
overwritten (first writer wins). -/
theorem c2_last_write_update (u : UserEngagement) (n : RawNotification) :
    (tsLt u.latest_action_timestamp n.action_timestamp = true →
      (stepUser u n).is_following = n.is_following ∧
      (stepUser u n).latest_action_text = n.action_text ∧
      (stepUser u n).latest_action_timestamp = n.action_timestamp ∧
      (stepUser u n).name = u.name) ∧
    (u.latest_action_timestamp = n.action_timestamp →
      (stepUser u n).is_following = u.is_following ∧
      (stepUser u n).latest_action_text = u.latest_action_text ∧
      (stepUser u n).latest_action_timestamp = u.latest_action_timestamp ∧
      (stepUser u n).name = u.name) := by
  constructor
  · intro h
    unfold stepUser
    simp [h, applyCounts]
  · intro h
    have hf : tsLt u.latest_action_timestamp n.action_timestamp = false := by
      rw [h]; exact tsLt_irrefl _
    unfold stepUser
    simp [hf, applyCounts]

theorem c2_last_write_update_witness :
    ((stepUser
        { id := "u1", name := "A", is_following := false,
          latest_action_timestamp := "2024-01-01 10:00:00" }
        { id := "u1", name := "B", action_text := "いいねしました",
          action_timestamp := "2024-01-01 11:00:00", is_following := true }).name = "A" ∧
      (stepUser
        { id := "u1", name := "A", is_following := false,
          latest_action_timestamp := "2024-01-01 10:00:00" }
        { id := "u1", name := "B", action_text := "いいねしました",
          action_timestamp := "2024-01-01 11:00:00", is_following := true }).is_following
        = true) ∧
      (stepUser
        { id := "u1", name := "A", is_following := false,
          latest_action_timestamp := "2024-01-01 10:00:00" }
        { id := "u1", name := "C", action_text := "いいねしました",
          action_timestamp := "2024-01-01 10:00:00", is_following := true }).is_following
        = false := by
  refine ⟨⟨?_, ?_⟩, ?_⟩
  · exact ((c2_last_write_update _ _).1 (by decide)).2.2.2
  · exact ((c2_last_write_update _ _).1 (by decide)).1
  · exact ((c2_last_write_update _ _).2 (by decide)).1

/-- Folding a non-empty notification list from the empty state yields an
entry whose counters are the phrase-match counts of the list. -/
theorem foldl_foldOne_none_counts (l : List RawNotification) (hne : l ≠ []) :
    ∃ v, l.foldl foldOne none = some v ∧
      countsOf v =
        (l.countP (fun n => strContains n.action_text likePhrase),
         l.countP (fun n => strContains n.action_text collectPhrase),
         l.countP (fun n => strContains n.action_text followPhrase),
         l.countP (fun n => strContains n.action_text commentPhrase)) := by
  rcases l with _ | ⟨n, rest⟩
  · exact absurd rfl hne
  · simp only [List.foldl_cons, foldOne, Option.getD_none]
    obtain ⟨v, hv, hid, hname, hlike, hcollect, hfollow, hcomment⟩ :=
      foldl_foldOne_some rest (stepUser (initUser n) n)
    refine ⟨v, hv, ?_⟩
    unfold countsOf
    rw [hlike, hcollect, hfollow, hcomment, stepUser_like, stepUser_collect,
      stepUser_follow, stepUser_comment]
    simp only [initUser, List.countP_cons]
    refine Prod.ext ?_ (Prod.ext ?_ (Prod.ext ?_ ?_)) <;> simp <;> omega

/-- C3: folding the three-notification scenario for `"u1"` produces the
expected `UserEngagement` (`like_count = 2`, `follow_count = 1`,
`is_following = true`, latest timestamp `2024-01-01 12:00:00`) which is
categorised `新規フォロー＆いいね感謝` ("new-follow-and-like thanks"); in
general each counter of an aggregated user equals the number of that
user's notifications whose action text contains the corresponding
phrase. -/
theorem c3_scenario_and_counts :
    lookupUser
        (aggregate
          [{ id := "u1", name := "Alice", action_text := "いいねしました",
             action_timestamp := "2024-01-01 10:00:00", is_following := false },
           { id := "u1", name := "Alice", action_text := "いいねしました",
             action_timestamp := "2024-01-01 11:00:00", is_following := false },
           { id := "u1", name := "Alice", action_text := "あなたをフォローしました",
             action_timestamp := "2024-01-01 12:00:00", is_following := true }])
        "u1" =
      some
        { id := "u1", name := "Alice", like_count := 2, collect_count := 0,
          follow_count := 1, comment_count := 0, is_following := true,
          latest_action_text := "あなたをフォローしました",
          latest_action_timestamp := "2024-01-01 12:00:00" } ∧
    categorize
        { id := "u1", name := "Alice", like_count := 2, collect_count := 0,
          follow_count := 1, comment_count := 0, is_following := true,
          latest_action_text := "あなたをフォローしました",
          latest_action_timestamp := "2024-01-01 12:00:00" } =
      "新規フォロー＆いいね感謝" ∧
    ∀ (ns : List RawNotification) (uid : String) (v : UserEngagement),
      lookupUser (aggregate ns) uid = some v →
        v.like_count =
            (ns.filter (fun n => n.id = uid)).countP
              (fun n => strContains n.action_text likePhrase) ∧
          v.collect_count =
            (ns.filter (fun n => n.id = uid)).countP
              (fun n => strContains n.action_text collectPhrase) ∧
          v.follow_count =
            (ns.filter (fun n => n.id = uid)).countP
              (fun n => strContains n.action_text followPhrase) ∧
          v.comment_count =
            (ns.filter (fun n => n.id = uid)).countP
              (fun n => strContains n.action_text commentPhrase) :=
  ⟨rfl, rfl, fun ns uid v hv => counts_eq_countP ns uid v hv⟩

theorem c3_scenario_and_counts_witness :
    ([{ id := "u1", name := "Alice", action_text := "いいねしました",
        action_timestamp := "2024-01-01 10:00:00",
        is_following := false }].filter
          (fun n => RawNotification.id n = "u1")).countP
        (fun n => strContains n.action_text likePhrase) = 1 ∧
      (1 : Nat) = 1 := by
  have h := c3_scenario_and_counts.2.2
    [{ id := "u1", name := "Alice", action_text := "いいねしました",
       action_timestamp := "2024-01-01 10:00:00", is_following := false }]
    "u1"
    { id := "u1", name := "Alice", like_count := 1, is_following := false,
      latest_action_timestamp := "2024-01-01 10:00:00" }
    (by decide)
  exact ⟨(h.1).symm, rfl⟩

theorem tsLt_asymm {a b : String} (h : tsLt a b = true) : tsLt b a = false := by
  rw [tsLt, lexLtB_iff] at h
  by_contra hc
  rw [Bool.not_eq_false, tsLt, lexLtB_iff] at hc
  exact asymm_of (List.Lex (· < ·)) h hc

theorem tsLt_false_trans {a b c : String} (h₁ : tsLt b a = false) (h₂ : tsLt c b = false) :
    tsLt c a = false := by
  by_contra hc
  rw [Bool.not_eq_false, tsLt, lexLtB_iff] at hc
  rcases (inferInstance : IsTrichotomous (List Char) (List.Lex (· < ·))).trichotomous
      b.data c.data with h3 | h3 | h3
  · have hba : List.Lex (· < ·) b.data a.data :=
      (inferInstance : IsTrans (List Char) (List.Lex (· < ·))).trans _ _ _ h3 hc
    rw [← lexLtB_iff] at hba
    rw [tsLt] at h₁
    rw [h₁] at hba
    exact Bool.false_ne_true hba
  · rw [← lexLtB_iff] at hc
    rw [tsLt, h3, hc] at h₁
    exact Bool.true_eq_false_eq_False h₁
  · rw [← lexLtB_iff] at h3
    rw [tsLt, h3] at h₂
    exact Bool.true_eq_false_eq_False h₂

theorem tsLt_empty {s : String} (h : s ≠ "") : tsLt "" s = true := by
  rcases s with ⟨l⟩
  rcases l with _ | ⟨c, cs⟩
  · exact absurd rfl h
  · rfl

/-- The running-maximum fold of `get_latest_timestamp_from_db`: its result
is at least the seed, an upper bound of every timestamp in the store, and
equals the seed or one of the timestamps. -/
theorem maxfold_props (data : List UserEngagement) (acc : String) :
    tsLt
        (data.foldl
          (fun acc u => if tsLt acc u.latest_action_timestamp then u.latest_action_timestamp
            else acc) acc)
        acc = false ∧
      (∀ v ∈ data,
        tsLt
          (data.foldl
            (fun acc u => if tsLt acc u.latest_action_timestamp then u.latest_action_timestamp
              else acc) acc)
          v.latest_action_timestamp = false) ∧
      (data.foldl
          (fun acc u => if tsLt acc u.latest_action_timestamp then u.latest_action_timestamp
            else acc) acc = acc ∨
        ∃ v ∈ data,
          data.foldl
            (fun acc u => if tsLt acc u.latest_action_timestamp then u.latest_action_timestamp
              else acc) acc = v.latest_action_timestamp) := by
  induction data generalizing acc with
  | nil => exact ⟨tsLt_irrefl acc, by simp, Or.inl rfl⟩
  | cons u data ih =>
    simp only [List.foldl_cons]
    by_cases hu : tsLt acc u.latest_action_timestamp = true
    · rw [if_pos hu]
      obtain ⟨ih1, ih2, ih3⟩ := ih u.latest_action_timestamp
      refine ⟨tsLt_false_trans (tsLt_asymm hu) ih1, ?_, ?_⟩
      · intro v hv
        rcases List.mem_cons.mp hv with h | h
        · rw [h]; exact ih1
        · exact ih2 v h
      · rcases ih3 with h | ⟨v, hv, he⟩
        · exact Or.inr ⟨u, List.mem_cons_self u data, h⟩
        · exact Or.inr ⟨v, List.mem_cons_of_mem u hv, he⟩
    · rw [if_neg hu]
      rw [Bool.not_eq_true] at hu
      obtain ⟨ih1, ih2, ih3⟩ := ih acc
      refine ⟨ih1, ?_, ?_⟩
      · intro v hv
        rcases List.mem_cons.mp hv with h | h
        · rw [h]; exact tsLt_false_trans hu ih1
        · exact ih2 v h
      · rcases ih3 with h | ⟨v, hv, he⟩
        · exact Or.inl h
        · exact Or.inr ⟨v, List.mem_cons_of_mem u hv, he⟩

/-- C6: the phase 3 pre-filter admits a categorised user iff its latest
action timestamp strictly exceeds both the 12-hour boundary and the
store's most recent `latest_action_timestamp` (which
`get_latest_timestamp_from_db` computes: an upper bound of the store's
timestamps that is the sentinel or one of them); users at or below either
boundary are excluded. -/
theorem c6_prefilter (twelveAgo : String) (data users : List UserEngagement) :
    (∀ u, u ∈ usersToProcess twelveAgo (get_latest_timestamp_from_db (some data)) users ↔
      u ∈ users ∧
        tsLt twelveAgo u.latest_action_timestamp = true ∧
        tsLt (get_latest_timestamp_from_db (some data)) u.latest_action_timestamp = true) ∧
    (∀ v ∈ data,
      tsLt (get_latest_timestamp_from_db (some data)) v.latest_action_timestamp = false) ∧
    (get_latest_timestamp_from_db (some data) = "" ∨
      ∃ v ∈ data, get_latest_timestamp_from_db (some data) = v.latest_action_timestamp) := by
  obtain ⟨_, h2, h3⟩ := maxfold_props data ""
  refine ⟨?_, h2, h3⟩
  intro u
  simp [usersToProcess, List.mem_filter, and_assoc]

theorem c6_prefilter_witness :
    ({ id := "u1", name := "A", is_following := false,
       latest_action_timestamp := "2024-01-02 09:00:00" } : UserEngagement) ∈
      usersToProcess "2024-01-02 00:00:00"
        (get_latest_timestamp_from_db
          (some [{ id := "u2", name := "B", is_following := true,
                   latest_action_timestamp := "2024-01-01 12:00:00" }]))
        [{ id := "u1", name := "A", is_following := false,
           latest_action_timestamp := "2024-01-02 09:00:00" }] := by
  refine ((c6_prefilter "2024-01-02 00:00:00" _ _).1 _).mpr ?_
  exact ⟨by decide, by decide, by decide⟩

/-- C9: a missing template file leaves every record untouched (no
`comment_text`, nothing discarded) and the pipeline still runs the merge on
those records; when the templates load but the record's category and the
fallback key yield no templates, the record gets the fixed fallback
sentence as its `comment_text`. -/
theorem c9_template_error_handling :
    (∀ (choose : List String → String) (users : List UserEngagement),
      bindComments none choose users = users) ∧
    (∀ (choose : List String → String) (users oldStore : List UserEngagement)
        (cutoff : String),
      bindThenMerge none choose users oldStore cutoff = mergeStore users oldStore cutoff) ∧
    (∀ (tmap : List (String × List String)) (choose : List String → String)
        (u : UserEngagement),
      lookupTemplates tmap u.category = [] →
        (bindUser tmap choose u).comment_text = some fallbackComment) := by
  refine ⟨fun choose users => rfl, fun choose users oldStore cutoff => rfl, ?_⟩
  intro tmap choose u h
  unfold bindUser
  simp [h]

theorem c9_template_error_handling_witness :
    (bindUser [] (fun ts => ts.headD "")
        { id := "u1", name := "A", is_following := false,
          latest_action_timestamp := "2024-01-01 10:00:00",
          category := "いいね感謝" }).comment_text = some fallbackComment := by
  exact c9_template_error_handling.2.2 [] (fun ts => ts.headD "") _ rfl

/-- C10: a missing or corrupt store on read is a cold start, never an
error: the merge runs against an empty prior store, the newest-timestamp
query returns the minimal sentinel `""` so the pre-filter degenerates to
the 12-hour lookback alone, and only a failing write makes the phase
return an error. -/
theorem c10_store_error_handling :
    (∀ (newBatch : List UserEngagement) (cutoff : String),
      runMergePhase none newBatch cutoff true = Except.ok (mergeStore newBatch [] cutoff)) ∧
    get_latest_timestamp_from_db none = "" ∧
    (∀ (twelveAgo : String) (users : List UserEngagement),
      (∀ u ∈ users, u.latest_action_timestamp ≠ "") →
        usersToProcess twelveAgo (get_latest_timestamp_from_db none) users =
          users.filter (fun u => tsLt twelveAgo u.latest_action_timestamp)) ∧
    (∀ (storeRead : Option (List UserEngagement)) (newBatch : List UserEngagement)
        (cutoff : String),
      runMergePhase storeRead newBatch cutoff false =
        Except.error "JSONファイルへの保存中にエラーが発生しました") := by
  refine ⟨fun newBatch cutoff => rfl, rfl, ?_, fun storeRead newBatch cutoff => rfl⟩
  intro twelveAgo users h
  unfold usersToProcess
  refine List.filter_congr ?_
  intro u hu
  rw [get_latest_timestamp_from_db, tsLt_empty (h u hu), Bool.and_true]

theorem c10_store_error_handling_witness :
    usersToProcess "2024-01-02 00:00:00" (get_latest_timestamp_from_db none)
        [{ id := "u1", name := "A", is_following := false,
           latest_action_timestamp := "2024-01-02 09:00:00" }] =
      [{ id := "u1", name := "A", is_following := false,
         latest_action_timestamp := "2024-01-02 09:00:00" }] := by
  rw [c10_store_error_handling.2.2.1 "2024-01-02 00:00:00" _ (by decide)]
  decide

instance : IsTotal UserEngagement descLe :=
  ⟨by
    intro a b
    unfold descLe
    by_cases h : tsLt a.latest_action_timestamp b.latest_action_timestamp = true
    · exact Or.inr (tsLt_asymm h)
    · exact Or.inl (Bool.not_eq_true _ ▸ h)⟩

instance : IsTrans UserEngagement descLe :=
  ⟨by
    intro a b c h₁ h₂
    unfold descLe at *
    exact tsLt_false_trans h₂ h₁⟩

theorem mem_dictInsert {m : List UserEngagement} {u v : UserEngagement}
    (hv : v ∈ dictInsert m u) : v = u ∨ v ∈ m := by
  induction m with
  | nil => simpa [dictInsert] using hv
  | cons x xs ih =>
    simp only [dictInsert] at hv
    by_cases h : x.id = u.id
    · rw [if_pos h] at hv
      rcases List.mem_cons.mp hv with h1 | h1
      · exact Or.inl h1
      · exact Or.inr (List.mem_cons_of_mem x h1)
    · rw [if_neg h] at hv
      rcases List.mem_cons.mp hv with h1 | h1
      · exact Or.inr (h1 ▸ List.mem_cons_self x xs)
      · rcases ih h1 with h2 | h2
        · exact Or.inl h2
        · exact Or.inr (List.mem_cons_of_mem x h2)

theorem dictInsert_nodup {m : List UserEngagement} (u : UserEngagement)
    (h : (m.map UserEngagement.id).Nodup) :
    ((dictInsert m u).map UserEngagement.id).Nodup := by
  induction m with
  | nil => simp [dictInsert]
  | cons x xs ih =>
    simp only [List.map_cons, List.nodup_cons] at h
    obtain ⟨hx, hxs⟩ := h
    simp only [dictInsert]
    by_cases heq : x.id = u.id
    · rw [if_pos heq]
      simp only [List.map_cons, List.nodup_cons]
      exact ⟨heq ▸ hx, hxs⟩
    · rw [if_neg heq]
      simp only [List.map_cons, List.nodup_cons]
      refine ⟨?_, ih hxs⟩
      intro hmem
      rcases List.mem_map.mp hmem with ⟨y, hy, hyid⟩
      rcases mem_dictInsert hy with h2 | h2
      · exact heq (hyid ▸ h2 ▸ rfl)
      · exact hx (List.mem_map.mpr ⟨y, h2, hyid⟩)

theorem mem_dictInsert_id_eq {m : List UserEngagement} {u v : UserEngagement}
    (hm : (m.map UserEngagement.id).Nodup) (hv : v ∈ dictInsert m u)
    (hid : v.id = u.id) : v = u := by
  induction m with
  | nil => simpa [dictInsert] using hv
  | cons x xs ih =>
    simp only [List.map_cons, List.nodup_cons] at hm
    obtain ⟨hx, hxs⟩ := hm
    simp only [dictInsert] at hv
    by_cases heq : x.id = u.id
    · rw [if_pos heq] at hv
      rcases List.mem_cons.mp hv with h1 | h1
      · exact h1
      · exact absurd (List.mem_map.mpr ⟨v, h1, hid.trans heq.symm⟩) hx
    · rw [if_neg heq] at hv
      rcases List.mem_cons.mp hv with h1 | h1
      · exact absurd (h1 ▸ hid) heq
      · exact ih hxs h1

theorem foldl_dictInsert_nodup (l : List UserEngagement) (d : List UserEngagement)
    (hd : (d.map UserEngagement.id).Nodup) :
    ((l.foldl dictInsert d).map UserEngagement.id).Nodup := by
  induction l generalizing d with
  | nil => exact hd
  | cons b bs ih => exact ih (dictInsert d b) (dictInsert_nodup b hd)

/-- An element of the dictionary after folding a batch either is a batch
element or comes from the prior dictionary with a key absent from the
batch. -/
theorem foldl_dictInsert_mem (l : List UserEngagement) (d : List UserEngagement)
    (v : UserEngagement) (hd : (d.map UserEngagement.id).Nodup)
    (hv : v ∈ l.foldl dictInsert d) :
    v ∈ l ∨ (v ∈ d ∧ ∀ w ∈ l, w.id ≠ v.id) := by
  induction l generalizing d with
  | nil => exact Or.inr ⟨hv, by simp⟩
  | cons b bs ih =>
    rcases ih (dictInsert d b) (dictInsert_nodup b hd) hv with h1 | ⟨h1, h2⟩
    · exact Or.inl (List.mem_cons_of_mem b h1)
    · rcases mem_dictInsert h1 with h3 | h3
      · exact Or.inl (h3 ▸ List.mem_cons_self b bs)
      · by_cases hid : v.id = b.id
        · exact Or.inl ((mem_dictInsert_id_eq hd h1 hid) ▸ List.mem_cons_self b bs)
        · refine Or.inr ⟨h3, ?_⟩
          intro w hw
          rcases List.mem_cons.mp hw with h4 | h4
          · exact fun he => hid ((h4 ▸ he).symm)
          · exact h2 w h4

/-- C5: the store merge keeps at most one record per `user_id`; for any
`user_id` occurring in the new batch the surviving record is a new-batch
record (new overwrites old); exactly the dictionary records with
`latest_action_timestamp` not strictly below the 24-hour cutoff survive
(boundary inclusive, `action_time >= cutoff` retained); and the persisted
result is sorted by `latest_action_timestamp` descending. -/
theorem c5_store_merge (newBatch oldStore : List UserEngagement) (cutoff : String) :
    ((mergeStore newBatch oldStore cutoff).map UserEngagement.id).Nodup ∧
    (∀ v ∈ mergeStore newBatch oldStore cutoff,
      (∃ w ∈ newBatch, w.id = v.id) → v ∈ newBatch) ∧
    (∀ v ∈ mergeStore newBatch oldStore cutoff,
      tsLt v.latest_action_timestamp cutoff = false) ∧
    (∀ v ∈ newBatch.foldl dictInsert (storeDictOf oldStore),
      tsLt v.latest_action_timestamp cutoff = false →
        v ∈ mergeStore newBatch oldStore cutoff) ∧
    List.Sorted descLe (mergeStore newBatch oldStore cutoff) := by
  have hSD : ((storeDictOf oldStore).map UserEngagement.id).Nodup := by
    unfold storeDictOf
    exact foldl_dictInsert_nodup oldStore [] (by simp)
  have hD : ((newBatch.foldl dictInsert (storeDictOf oldStore)).map UserEngagement.id).Nodup :=
    foldl_dictInsert_nodup newBatch _ hSD
  have hperm :
      (mergeStore newBatch oldStore cutoff).Perm
        (retentionFilter cutoff (newBatch.foldl dictInsert (storeDictOf oldStore))) :=
    List.perm_insertionSort descLe _
  refine ⟨?_, ?_, ?_, ?_, ?_⟩
  · refine ((hperm.map UserEngagement.id).nodup_iff).mpr ?_
    exact List.Sublist.nodup ((List.filter_sublist _).map _) hD
  · intro v hv ⟨w, hw, hwid⟩
    have hvf := hperm.mem_iff.mp hv
    have hvD := (List.mem_filter.mp hvf).1
    rcases foldl_dictInsert_mem newBatch _ v hSD hvD with h1 | ⟨_, h2⟩
    · exact h1
    · exact absurd hwid (h2 w hw)
  · intro v hv
    have hvf := hperm.mem_iff.mp hv
    have := (List.mem_filter.mp hvf).2
    simpa using this
  · intro v hv h
    refine hperm.mem_iff.mpr (List.mem_filter.mpr ⟨hv, ?_⟩)
    simp [h]
  · exact List.sorted_insertionSort descLe _

theorem c5_store_merge_witness :
    ({ id := "u2", name := "B", is_following := true,
       latest_action_timestamp := "2024-01-02 10:00:00" } : UserEngagement) ∈
      mergeStore
        [{ id := "u1", name := "A", is_following := false,
           latest_action_timestamp := "2024-01-02 23:00:00" }]
        [{ id := "u1", name := "A", is_following := false,
           latest_action_timestamp := "2024-01-01 09:00:00" },
         { id := "u2", name := "B", is_following := true,
           latest_action_timestamp := "2024-01-02 10:00:00" }]
        "2024-01-02 10:00:00" := by
  exact (c5_store_merge _ _ _).2.2.2.1 _ (by decide) (by decide)

theorem ite_neg_lt_iff {p q : Prop} [Decidable p] [Decidable q] :
    ((if p then (-1 : Int) else 0) < (if q then -1 else 0)) ↔
      ((if p then (0 : Nat) else 1) < (if q then 0 else 1)) := by
  by_cases hp : p <;> by_cases hq : q <;> simp [hp, hq]

theorem ite_neg_eq_iff {p q : Prop} [Decidable p] [Decidable q] :
    ((if p then (-1 : Int) else 0) = (if q then -1 else 0)) ↔
      ((if p then (0 : Nat) else 1) = (if q then 0 else 1)) := by
  by_cases hp : p <;> by_cases hq : q <;> simp [hp, hq]

theorem ite_neg_le_iff {p q : Prop} [Decidable p] [Decidable q] :
    ((if p then (-1 : Int) else 0) ≤ (if q then -1 else 0)) ↔
      ((if p then (0 : Nat) else 1) ≤ (if q then 0 else 1)) := by
  by_cases hp : p <;> by_cases hq : q <;> simp [hp, hq]

theorem ite_pos_lt_iff {p q : Prop} [Decidable p] [Decidable q] :
    ((if p then (1 : Int) else 0) < (if q then 1 else 0)) ↔
      ((if p then (1 : Nat) else 0) < (if q then 1 else 0)) := by
  by_cases hp : p <;> by_cases hq : q <;> simp [hp, hq]

theorem ite_pos_eq_iff {p q : Prop} [Decidable p] [Decidable q] :
    ((if p then (1 : Int) else 0) = (if q then 1 else 0)) ↔
      ((if p then (1 : Nat) else 0) = (if q then 1 else 0)) := by
  by_cases hp : p <;> by_cases hq : q <;> simp [hp, hq]

/-- The code's `-1/0` key components and the spec's `0/1` key components
induce the same order: the phase 3 sort order is exactly the spec's
composite-key order. -/
theorem rankLe_iff_specUserLe (a b : UserEngagement) : rankLe a b ↔ specUserLe a b := by
  unfold rankLe specUserLe keyLe specKeyLe codeKey specKey
  rw [ite_neg_lt_iff, ite_neg_eq_iff, ite_neg_lt_iff, ite_neg_eq_iff,
    ite_pos_lt_iff, ite_pos_eq_iff, ite_neg_le_iff]

theorem codeKey_eq_of_specKey_eq {a b : UserEngagement} (h : specKey a = specKey b) :
    codeKey a = codeKey b := by
  unfold specKey at h
  unfold codeKey
  simp only [Prod.ext_iff] at h ⊢
  exact ⟨h.1, ite_neg_eq_iff.mpr h.2.1, ite_neg_eq_iff.mpr h.2.2.1,
    ite_pos_eq_iff.mpr h.2.2.2.1, ite_neg_eq_iff.mpr h.2.2.2.2⟩

theorem keyLe_refl (k : Int × Int × Int × Int × Int) : keyLe k k := by
  unfold keyLe; omega

/-- C4: the Ranker's output is the first `N` records of a stably sorted
permutation of the input under the spec's ascending composite key, and the
sort is stable: two records with identical 5-component keys keep their
relative input order. -/
theorem c4_ranker_order_and_stability (N : Nat) (l : List UserEngagement) :
    List.Sorted specUserLe (ranker N l) ∧
    (∃ rest, (ranker N l ++ rest).Perm l ∧ List.Sorted specUserLe (ranker N l ++ rest)) ∧
    (∀ a b : UserEngagement, specKey a = specKey b → List.Sublist [a, b] l → List.Sublist [a, b] (rankUsers l)) := by
  have hsorted : List.Sorted specUserLe (rankUsers l) :=
    List.Pairwise.imp (fun h => (rankLe_iff_specUserLe _ _).mp h)
      (List.sorted_insertionSort rankLe l)
  refine ⟨?_, ?_, ?_⟩
  · exact List.Pairwise.sublist (List.take_sublist N _) hsorted
  · refine ⟨(rankUsers l).drop N, ?_, ?_⟩
    · show ((rankUsers l).take N ++ (rankUsers l).drop N).Perm l
      rw [List.take_append_drop]
      exact List.perm_insertionSort rankLe l
    · show List.Sorted specUserLe ((rankUsers l).take N ++ (rankUsers l).drop N)
      rw [List.take_append_drop]
      exact hsorted
  · intro a b hkey hsub
    have hab : rankLe a b := by
      unfold rankLe
      rw [codeKey_eq_of_specKey_eq hkey]
      exact keyLe_refl _
    exact List.pair_sublist_insertionSort hab hsub

theorem c4_ranker_order_and_stability_witness :
    List.Sublist
    [({ id := "u1", name := "A", like_count := 1, is_following := false,
        latest_action_timestamp := "2024-01-01 10:00:00" } : UserEngagement),
     { id := "u2", name := "B", like_count := 1, is_following := false,
       latest_action_timestamp := "2024-01-01 11:00:00" }]
      (rankUsers
        [{ id := "u1", name := "A", like_count := 1, is_following := false,
           latest_action_timestamp := "2024-01-01 10:00:00" },
         { id := "u2", name := "B", like_count := 1, is_following := false,
           latest_action_timestamp := "2024-01-01 11:00:00" }]) := by
  exact (c4_ranker_order_and_stability 2 _).2.2 _ _ (by decide) (List.Sublist.refl _)

theorem dropWhile_head_false {p : Char → Bool} :
    ∀ {l : List Char} {s : Char} {r : List Char}, l.dropWhile p = s :: r → p s = false := by
  intro l
  induction l with
  | nil => intro s r h; cases h
  | cons a as ih =>
    intro s r h
    rw [List.dropWhile_cons] at h
    cases hpa : p a with
    | true => rw [hpa] at h; simp only [if_true] at h; exact ih h
    | false =>
      rw [hpa] at h
      simp only [Bool.false_eq_true, if_false, List.cons.injEq] at h
      rw [← h.1]
      exact hpa

/-- `splitOnP` exposed as: the separator-free head chunk, then the split of
what follows the first separator. -/
theorem splitOnP_head_tail (p : Char → Bool) (cs : List Char) :
    cs.splitOnP p =
      cs.takeWhile (fun d => ! p d) ::
        (match cs.dropWhile (fun d => ! p d) with
         | [] => ([] : List (List Char))
         | _ :: r => r.splitOnP p) := by
  induction cs with
  | nil => simp [List.splitOnP_nil]
  | cons d ds ih =>
    rw [List.splitOnP_cons]
    cases hp : p d with
    | true =>
      simp only [hp, if_true, List.takeWhile_cons, List.dropWhile_cons, Bool.not_true,
        Bool.false_eq_true, if_false]
    | false =>
      simp only [hp, Bool.false_eq_true, if_false, ih, List.modifyHead, List.takeWhile_cons,
        List.dropWhile_cons, Bool.not_false, if_true]

/-- The split-then-search of `extract_natural_name` computes exactly the
direct first-chunk scan. -/
theorem find_splitOnP_eq_firstChunk (l : List Char) :
    Option.map trimChars
        ((l.splitOnP isSepChar).find? (fun part => ! (trimChars part).isEmpty)) =
      firstChunk l := by
  induction l using firstChunk.induct with
  | case1 => simp [List.splitOnP_nil, List.find?, trimChars, firstChunk]
  | case2 c cs h ih =>
    rw [List.splitOnP_cons]
    simp only [h, if_true]
    rw [List.find?_cons_of_neg _ (by simp [trimChars])]
    rw [ih]
    simp only [firstChunk, h, if_true]
  | case3 c cs h chunk hempty ih =>
    have hem : (trimChars (c :: cs.takeWhile (fun d => ! isSepChar d))).isEmpty = true := hempty
    rw [List.splitOnP_cons, if_neg h, splitOnP_head_tail isSepChar cs]
    simp only [List.modifyHead]
    rw [List.find?_cons_of_neg _ (by simp [hem])]
    have hrhs : firstChunk (c :: cs) = firstChunk (cs.dropWhile (fun d => ! isSepChar d)) := by
      simp [firstChunk, h, hem]
    rw [hrhs]
    cases hd : cs.dropWhile (fun d => ! isSepChar d) with
    | nil =>
      simp [firstChunk, List.find?]
    | cons s r =>
      have hs : isSepChar s = true := by simpa using dropWhile_head_false hd
      rw [hd] at ih
      rw [List.splitOnP_cons, if_pos hs] at ih
      rw [List.find?_cons_of_neg _ (by simp [trimChars])] at ih
      exact ih
  | case4 c cs h chunk hne =>
    have hne' : (trimChars (c :: cs.takeWhile (fun d => ! isSepChar d))).isEmpty = false := by
      have h2 : (trimChars (c :: cs.takeWhile (fun d => ! isSepChar d))).isEmpty ≠ true := hne
      simpa using h2
    rw [List.splitOnP_cons, if_neg h, splitOnP_head_tail isSepChar cs]
    simp only [List.modifyHead]
    rw [List.find?_cons_of_pos _ (by simp [hne'])]
    simp only [Option.map_some']
    have hrhs :
        firstChunk (c :: cs) =
          some (trimChars (c :: cs.takeWhile (fun d => ! isSepChar d))) := by
      simp [firstChunk, h, hne']
    rw [hrhs]

/-- The as-executed extraction equals its first-chunk characterisation. -/
theorem extract_eq_extractSpec (s : String) : extract_natural_name s = extractSpec s := by
  unfold extract_natural_name extractSpec
  by_cases h : s = ""
  · simp [h]
  · rw [if_neg h, if_neg h]
    have he := find_splitOnP_eq_firstChunk s.data
    cases hf : (s.data.splitOnP isSepChar).find? (fun part => ! (trimChars part).isEmpty) with
    | none => rw [hf] at he; rw [← he]; rfl
    | some part => rw [hf] at he; rw [← he]; rfl

/-- C8 counterexample: the extractor does not merely remove
leading/trailing decorative symbol runs.  For the all-decorative name
`"🌷"` removing the runs leaves `""` (so the claim would demand the
lead-in phrase be stripped), but the code returns the decorated name
itself and interpolates it into the template; and for `"a🌷b"` removing
leading/trailing runs leaves `"a🌷b"` while the code returns only the
first segment `"a"`. -/
theorem c8_counterexample :
    stripSymbolRuns "🌷" = "" ∧
    extract_natural_name "🌷" = "🌷" ∧
    bindText "{user_name}さん、こんにちは" "🌷" = "🌷さん、こんにちは" ∧
    bindText "{user_name}さん、こんにちは" "🌷" ≠ "こんにちは" ∧
    extract_natural_name "a🌷b" = "a" ∧
    stripSymbolRuns "a🌷b" = "a🌷b" :=
  ⟨by decide, by decide, by decide, by decide, by decide, by decide⟩

/-- C8 amended: the extractor returns the first separator-delimited
segment whose strip is non-empty (stripped) — skipping leading separators
and whitespace-only segments and dropping everything from the next
separator on — and falls back to the stripped original name (decorations
intact) when every segment strips to empty; the binder interpolates that
name into the template's `\x7buser_name\x7d` placeholder iff it is
non-empty and at most 6 characters, and otherwise removes the
`\x7buser_name\x7dさん、` lead-in phrase and strips the result. -/
theorem c8_comment_binder (s template rawName : String) :
    extract_natural_name s = extractSpec s ∧
    bindText template rawName =
      (if extractSpec rawName ≠ "" ∧ (extractSpec rawName).length ≤ 6 then
        strReplace template "{user_name}" (extractSpec rawName)
      else strTrim (strReplace template leadIn "")) := by
  refine ⟨extract_eq_extractSpec s, ?_⟩
  unfold bindText
  rw [extract_eq_extractSpec]

theorem ts_eq_of_data_eq {a b : String} (h : a.data = b.data) : a = b := by
  cases a
  cases b
  exact congrArg String.mk h

theorem ts_eq_or_lt_of_not_lt {a b : String} (h : tsLt a b = false) :
    a = b ∨ tsLt b a = true := by
  rcases (inferInstance : IsTrichotomous (List Char) (List.Lex (· < ·))).trichotomous
      a.data b.data with h3 | h3 | h3
  · rw [← lexLtB_iff] at h3
    rw [tsLt] at h
    rw [h] at h3
    exact absurd h3 Bool.false_ne_true
  · exact Or.inl (ts_eq_of_data_eq h3)
  · rw [← lexLtB_iff] at h3
    exact Or.inr h3

theorem ts_lt_trans {a b c : String} (h₁ : tsLt a b = true) (h₂ : tsLt b c = true) :
    tsLt a c = true := by
  rw [tsLt, lexLtB_iff] at h₁ h₂ ⊢
  exact (inferInstance : IsTrans (List Char) (List.Lex (· < ·))).trans _ _ _ h₁ h₂

theorem ts_le_lt_trans {a b c : String} (h₁ : tsLt b a = false) (h₂ : tsLt b c = true) :
    tsLt a c = true := by
  rcases ts_eq_or_lt_of_not_lt h₁ with he | hlt
  · rw [he] at h₂
    exact h₂
  · exact ts_lt_trans hlt h₂

theorem stepUser_lastwrite (u : UserEngagement) (n : RawNotification) :
    ((stepUser u n).latest_action_timestamp, (stepUser u n).is_following) =
      lastWriteState (u.latest_action_timestamp, u.is_following) n := by
  by_cases h : tsLt u.latest_action_timestamp n.action_timestamp = true <;>
    simp [stepUser, lastWriteState, applyCounts, h]

theorem foldl_foldOne_eq_stepUser (l : List RawNotification) (u : UserEngagement) :
    l.foldl foldOne (some u) = some (l.foldl stepUser u) := by
  induction l generalizing u with
  | nil => rfl
  | cons n t ih => simp [foldOne, ih]

theorem foldl_stepUser_name (l : List RawNotification) (u : UserEngagement) :
    (l.foldl stepUser u).name = u.name := by
  induction l generalizing u with
  | nil => rfl
  | cons n t ih =>
    simp only [List.foldl_cons]
    rw [ih, stepUser_name]

theorem foldl_stepUser_lastwrite (l : List RawNotification) (u : UserEngagement) :
    ((l.foldl stepUser u).latest_action_timestamp, (l.foldl stepUser u).is_following) =
      l.foldl lastWriteState (u.latest_action_timestamp, u.is_following) := by
  induction l generalizing u with
  | nil => rfl
  | cons n t ih =>
    simp only [List.foldl_cons]
    rw [ih, stepUser_lastwrite]

/-- The running last-write fold either never fires (every timestamp at or
below the seed) or lands on the unique strictly-dominating notification,
provided the timestamps are pairwise distinct. -/
theorem lastWrite_argmax :
    ∀ l : List RawNotification,
      l.Pairwise (fun m n => m.action_timestamp ≠ n.action_timestamp) →
      ∀ s : String × Bool,
        (l.foldl lastWriteState s = s ∧
          ∀ n ∈ l, tsLt s.1 n.action_timestamp = false) ∨
        (∃ n ∈ l, l.foldl lastWriteState s = (n.action_timestamp, n.is_following) ∧
          tsLt s.1 n.action_timestamp = true ∧
          ∀ m ∈ l, m.action_timestamp ≠ n.action_timestamp →
            tsLt m.action_timestamp n.action_timestamp = true) := by
  intro l
  induction l with
  | nil => exact fun _ s => Or.inl ⟨rfl, by simp⟩
  | cons h t ih =>
    intro hdist s
    obtain ⟨hh, hdt⟩ := List.pairwise_cons.mp hdist
    simp only [List.foldl_cons]
    by_cases hs : tsLt s.1 h.action_timestamp = true
    · rw [show lastWriteState s h = (h.action_timestamp, h.is_following) from by
        simp only [lastWriteState]; rw [if_pos hs]]
      rcases ih hdt (h.action_timestamp, h.is_following) with ⟨heq, hub⟩ | ⟨n, hnt, heq, hgt, hdom⟩
      · refine Or.inr ⟨h, List.mem_cons_self _ _, heq, hs, ?_⟩
        intro m hm hne
        rcases List.mem_cons.mp hm with rfl | hm
        · exact absurd rfl hne
        · rcases ts_eq_or_lt_of_not_lt (hub m hm) with he | hlt
          · exact absurd he.symm hne
          · exact hlt
      · refine Or.inr ⟨n, List.mem_cons_of_mem _ hnt, heq, ts_lt_trans hs hgt, ?_⟩
        intro m hm hne
        rcases List.mem_cons.mp hm with rfl | hm
        · exact hgt
        · exact hdom m hm hne
    · have hs' : tsLt s.1 h.action_timestamp = false := by simpa using hs
      rw [show lastWriteState s h = s from by
        simp only [lastWriteState]; rw [if_neg hs]]
      rcases ih hdt s with ⟨heq, hub⟩ | ⟨n, hnt, heq, hgt, hdom⟩
      · refine Or.inl ⟨heq, ?_⟩
        intro m hm
        rcases List.mem_cons.mp hm with rfl | hm
        · exact hs'
        · exact hub m hm
      · refine Or.inr ⟨n, List.mem_cons_of_mem _ hnt, heq, hgt, ?_⟩
        intro m hm hne
        rcases List.mem_cons.mp hm with rfl | hm
        · exact ts_le_lt_trans hs' hgt
        · exact hdom m hm hne

/-- Folding one user's notification sequence with pairwise-distinct
timestamps: the resulting `latest_action_timestamp` and `is_following` are
those of the unique notification that strictly dominates all
distinct-timestamp companions. -/
theorem user_fold_argmax (l : List RawNotification)
    (hdist : l.Pairwise (fun m n => m.action_timestamp ≠ n.action_timestamp))
    (hne : l ≠ []) :
    ∃ v, l.foldl foldOne none = some v ∧ ∃ n ∈ l,
      v.latest_action_timestamp = n.action_timestamp ∧
      v.is_following = n.is_following ∧
      ∀ m ∈ l, m.action_timestamp ≠ n.action_timestamp →
        tsLt m.action_timestamp n.action_timestamp = true := by
  rcases l with _ | ⟨h, t⟩
  · exact absurd rfl hne
  · obtain ⟨hh, hdt⟩ := List.pairwise_cons.mp hdist
    simp only [List.foldl_cons, foldOne, Option.getD_none]
    rw [foldl_foldOne_eq_stepUser]
    refine ⟨_, rfl, ?_⟩
    have hproj := foldl_stepUser_lastwrite t (stepUser (initUser h) h)
    have hseed : ((stepUser (initUser h) h).latest_action_timestamp,
        (stepUser (initUser h) h).is_following) = (h.action_timestamp, h.is_following) := by
      rw [stepUser_lastwrite]
      simp [initUser, lastWriteState, tsLt_irrefl]
    rw [hseed] at hproj
    rcases lastWrite_argmax t hdt (h.action_timestamp, h.is_following) with
      ⟨heq, hub⟩ | ⟨n, hnt, heq, hgt, hdom⟩
    · have hc := hproj.trans heq
      refine ⟨h, List.mem_cons_self _ _, congrArg Prod.fst hc, congrArg Prod.snd hc, ?_⟩
      intro m hm hne2
      rcases List.mem_cons.mp hm with rfl | hm
      · exact absurd rfl hne2
      · rcases ts_eq_or_lt_of_not_lt (hub m hm) with he | hlt
        · exact absurd he.symm hne2
        · exact hlt
    · have hc := hproj.trans heq
      refine ⟨n, List.mem_cons_of_mem _ hnt, congrArg Prod.fst hc, congrArg Prod.snd hc, ?_⟩
      intro m hm hne2
      rcases List.mem_cons.mp hm with rfl | hm
      · exact hgt
      · exact hdom m hm hne2

/-- C7 counterexample: reordering two notifications of one user with
STRICTLY DISTINCT timestamps — no ties anywhere — changes the aggregated
`display_name` (`"A"` under one order, `"B"` under the other), because the
source seeds `name` at creation and never rewrites it; the genuinely
last-write fields `is_following` and `latest_action_timestamp` agree
across the two orders.  So order-sensitivity is not confined to a user's
equal-timestamp ties, refuting the claim's final clause. -/
theorem c7_counterexample :
    (([⟨"u1", "A", "いいねしました", "2024-01-01 10:00:00", false⟩,
       ⟨"u1", "B", "いいねしました", "2024-01-01 11:00:00", true⟩] :
        List RawNotification).Perm
      [⟨"u1", "B", "いいねしました", "2024-01-01 11:00:00", true⟩,
       ⟨"u1", "A", "いいねしました", "2024-01-01 10:00:00", false⟩]) ∧
    ("2024-01-01 10:00:00" : String) ≠ "2024-01-01 11:00:00" ∧
    (lookupUser
        (aggregate
          [⟨"u1", "A", "いいねしました", "2024-01-01 10:00:00", false⟩,
           ⟨"u1", "B", "いいねしました", "2024-01-01 11:00:00", true⟩])
        "u1").map UserEngagement.name = some "A" ∧
    (lookupUser
        (aggregate
          [⟨"u1", "B", "いいねしました", "2024-01-01 11:00:00", true⟩,
           ⟨"u1", "A", "いいねしました", "2024-01-01 10:00:00", false⟩])
        "u1").map UserEngagement.name = some "B" ∧
    ("A" : String) ≠ "B" ∧
    (lookupUser
        (aggregate
          [⟨"u1", "A", "いいねしました", "2024-01-01 10:00:00", false⟩,
           ⟨"u1", "B", "いいねしました", "2024-01-01 11:00:00", true⟩])
        "u1").map (fun u => (u.latest_action_timestamp, u.is_following)) =
      (lookupUser
        (aggregate
          [⟨"u1", "B", "いいねしました", "2024-01-01 11:00:00", true⟩,
           ⟨"u1", "A", "いいねしました", "2024-01-01 10:00:00", false⟩])
        "u1").map (fun u => (u.latest_action_timestamp, u.is_following)) :=
  ⟨by decide, by decide, by decide, by decide, by decide, by decide⟩

/-- C7 amended: folding two notification lists that agree on every user's
own notification subsequence yields the same aggregation dictionary entry
(hence identical counts and category) for every user; the four counters
are invariant under arbitrary permutation; of the last-write fields,
`is_following` and `latest_action_timestamp` depend on order only among a
user's own equal-timestamp notifications — under an arbitrary permutation
they are unchanged whenever the user's timestamps are pairwise distinct —
while `display_name` is first-write, not last-write: it always shows the
first-folded notification's name for that user. -/
theorem c7_order_independence (l₁ l₂ : List RawNotification) :
    ((∀ uid, l₁.filter (fun n => n.id = uid) = l₂.filter (fun n => n.id = uid)) →
      ∀ uid,
        lookupUser (aggregate l₁) uid = lookupUser (aggregate l₂) uid ∧
          (lookupUser (aggregate l₁) uid).map categorize =
            (lookupUser (aggregate l₂) uid).map categorize) ∧
    (l₁.Perm l₂ →
      ∀ uid,
        (lookupUser (aggregate l₁) uid).map countsOf =
          (lookupUser (aggregate l₂) uid).map countsOf) ∧
    (l₁.Perm l₂ →
      ∀ uid,
        (l₁.filter (fun n => n.id = uid)).Pairwise
          (fun m n => m.action_timestamp ≠ n.action_timestamp) →
        (lookupUser (aggregate l₁) uid).map
            (fun u => (u.latest_action_timestamp, u.is_following)) =
          (lookupUser (aggregate l₂) uid).map
            (fun u => (u.latest_action_timestamp, u.is_following))) ∧
    (∀ uid,
      (lookupUser (aggregate l₁) uid).map UserEngagement.name =
        ((l₁.filter (fun n => n.id = uid)).head?).map RawNotification.name) := by
  refine ⟨?_, ?_, ?_, ?_⟩
  · intro h uid
    have he : lookupUser (aggregate l₁) uid = lookupUser (aggregate l₂) uid := by
      rw [lookup_aggregate, lookup_aggregate, h uid]
    exact ⟨he, by rw [he]⟩
  · intro hp uid
    have hfp := hp.filter (fun n => decide (n.id = uid))
    rw [lookup_aggregate, lookup_aggregate]
    by_cases h1 : l₁.filter (fun n => n.id = uid) = []
    · have h2 : l₂.filter (fun n => n.id = uid) = [] := by
        rw [h1] at hfp
        exact hfp.symm.eq_nil
      rw [h1, h2]
    · have h2 : l₂.filter (fun n => n.id = uid) ≠ [] := by
        intro h2
        rw [h2] at hfp
        exact h1 hfp.eq_nil
      obtain ⟨v₁, hv₁, hc₁⟩ := foldl_foldOne_none_counts _ h1
      obtain ⟨v₂, hv₂, hc₂⟩ := foldl_foldOne_none_counts _ h2
      rw [hv₁, hv₂]
      simp only [Option.map_some']
      rw [hc₁, hc₂, hfp.countP_eq, hfp.countP_eq, hfp.countP_eq, hfp.countP_eq]
  · intro hp uid hdist₁
    have hfp := hp.filter (fun n => decide (n.id = uid))
    rw [lookup_aggregate, lookup_aggregate]
    by_cases h1 : l₁.filter (fun n => n.id = uid) = []
    · have h2 : l₂.filter (fun n => n.id = uid) = [] := by
        rw [h1] at hfp
        exact hfp.symm.eq_nil
      rw [h1, h2]
    · have h2 : l₂.filter (fun n => n.id = uid) ≠ [] := by
        intro h2
        rw [h2] at hfp
        exact h1 hfp.eq_nil
      have hdist₂ :
          (l₂.filter (fun n => n.id = uid)).Pairwise
            (fun m n => m.action_timestamp ≠ n.action_timestamp) :=
        (hfp.pairwise_iff (fun h => h.symm)).mp hdist₁
      obtain ⟨v₁, hv₁, n₁, hn₁, hts₁, hisf₁, hdom₁⟩ := user_fold_argmax _ hdist₁ h1
      obtain ⟨v₂, hv₂, n₂, hn₂, hts₂, hisf₂, hdom₂⟩ := user_fold_argmax _ hdist₂ h2
      rw [hv₁, hv₂]
      simp only [Option.map_some']
      by_cases hnn : n₁ = n₂
      · rw [hts₁, hisf₁, hts₂, hisf₂, hnn]
      · have hn₂' : n₂ ∈ l₁.filter (fun n => n.id = uid) := hfp.mem_iff.mpr hn₂
        have hne : n₁.action_timestamp ≠ n₂.action_timestamp :=
          List.Pairwise.forall (fun x y h => h.symm) hdist₁ hn₁ hn₂' hnn
        have hlt₁ : tsLt n₂.action_timestamp n₁.action_timestamp = true :=
          hdom₁ n₂ hn₂' (Ne.symm hne)
        have hlt₂ : tsLt n₁.action_timestamp n₂.action_timestamp = true :=
          hdom₂ n₁ (hfp.mem_iff.mp hn₁) hne
        rw [tsLt_asymm hlt₁] at hlt₂
        exact absurd hlt₂ Bool.false_ne_true
  · intro uid
    rw [lookup_aggregate]
    rcases hf : l₁.filter (fun n => n.id = uid) with _ | ⟨n, rest⟩
    · rw [hf]
      rfl
    · rw [hf]
      simp only [List.foldl_cons, foldOne, Option.getD_none, List.head?_cons]
      rw [foldl_foldOne_eq_stepUser]
      simp only [Option.map_some']
      rw [foldl_stepUser_name, stepUser_name]
      rfl

theorem c7_order_independence_witness :
    (lookupUser
        (aggregate
          [{ id := "u1", name := "A", action_text := "いいねしました",
             action_timestamp := "2024-01-01 10:00:00", is_following := false },
           { id := "u2", name := "B", action_text := "あなたをフォローしました",
             action_timestamp := "2024-01-01 11:00:00", is_following := true }])
        "u1" =
      lookupUser
        (aggregate
          [{ id := "u2", name := "B", action_text := "あなたをフォローしました",
             action_timestamp := "2024-01-01 11:00:00", is_following := true },
           { id := "u1", name := "A", action_text := "いいねしました",
             action_timestamp := "2024-01-01 10:00:00", is_following := false }])
        "u1") ∧
    (lookupUser
        (aggregate
          [⟨"u1", "A", "いいねしました", "2024-01-01 10:00:00", false⟩,
           ⟨"u1", "B", "いいねしました", "2024-01-01 11:00:00", true⟩])
        "u1").map (fun u => (u.latest_action_timestamp, u.is_following)) =
      (lookupUser
        (aggregate
          [⟨"u1", "B", "いいねしました", "2024-01-01 11:00:00", true⟩,
           ⟨"u1", "A", "いいねしました", "2024-01-01 10:00:00", false⟩])
        "u1").map (fun u => (u.latest_action_timestamp, u.is_following)) := by
  constructor
  · refine ((c7_order_independence _ _).1 ?_ "u1").1
    intro uid
    by_cases h1 : uid = "u1"
    · subst h1; decide
    · by_cases h2 : uid = "u2"
      · subst h2; decide
      · simp [List.filter_cons, Ne.symm h1, Ne.symm h2]
  · exact (c7_order_independence _ _).2.2.1 (by decide) "u1" (by decide)

end REngagement
